import Mathlib

/-!
Shallow embedding of the csv-processing program in `src/proccsv/__main__.py`
and verification of the specification's claims about it.

Modelling conventions:
* Python `str` values are Lean `String`s; parsing is defined over
  `String.data` (`List Char`).
* Python `int` is `Int` (unbounded, as in Python).
* Python `float` literals are read into exact rationals (`ℚ`) together with
  the special values `inf`, `-inf` and `nan`; the rounding of decimal
  literals to IEEE doubles is not modelled.  Only ASCII decimal digits are
  modelled (CPython additionally accepts other Unicode decimal digits in
  `int()`, `float()` and `strptime`).
* `time.strftime('%Y-%m-%d')` zero-pads month and day to two digits and
  renders the year without padding, as glibc does.
* The sqlite table used for grouping is modelled as the list of inserted
  rows; `GROUP BY date, country ... ORDER BY date, country` is modelled as
  summation over the deduplicated key list sorted lexicographically
  (sqlite's BINARY order on UTF-8 bytes coincides with the code-point
  order of Lean strings because UTF-8 is order preserving).
-/

namespace ProcCsv

/-- Result container mirroring the `Item` namedtuple of the source
(fields `val` and `msg`); `val = none` models Python `None`. -/
structure Item (α : Type) where
  val : Option α
  msg : String
deriving DecidableEq

/-- Numeric value of an ASCII digit character. -/
def charDigit (c : Char) : Nat := c.toNat - '0'.toNat

/-- Decimal value of a list of digit characters. -/
def digitsVal (l : List Char) : Nat := l.foldl (fun a c => a * 10 + charDigit c) 0

/-- Python `str.split(sep)` for a one-character separator. -/
def pySplit (sep : Char) : List Char → List (List Char)
  | [] => [[]]
  | c :: rest =>
    if c = sep then [] :: pySplit sep rest
    else
      match pySplit sep rest with
      | [] => [[c]]
      | p :: ps => (c :: p) :: ps

/-- `str.split` lifted to `String`. -/
def pySplitStr (sep : Char) (s : String) : List String :=
  (pySplit sep s.data).map String.mk

/-- The whitespace characters stripped by Python's `int()` and `float()`
(the ASCII ones; other Unicode whitespace is not modelled). -/
def pyIsSpace (c : Char) : Bool :=
  c = ' ' || c = '\t' || c = '\n' || c = '\r' || c = '\x0b' || c = '\x0c'

/-- Strip leading and trailing whitespace. -/
def pyStrip (l : List Char) : List Char :=
  ((l.dropWhile pyIsSpace).reverse.dropWhile pyIsSpace).reverse

/-- A valid Python digit run: digits with single underscores strictly
between digits (as accepted inside `int()` / `float()` literals). -/
def udigits : List Char → Bool
  | [] => false
  | [c] => c.isDigit
  | c :: '_' :: rest => c.isDigit && udigits rest
  | c :: rest => c.isDigit && udigits rest

/-- Drop the underscores of a digit run. -/
def noUnd (l : List Char) : List Char := l.filter (fun c => c != '_')

/-- Value of an unsigned digit run, if well formed. -/
def pyIntTok (l : List Char) : Option Int :=
  if udigits l then some ((digitsVal (noUnd l) : Int)) else none

/-- Python `int(str)`: strip whitespace, optional sign, digit run. -/
def pyIntCore (l : List Char) : Option Int :=
  match pyStrip l with
  | '+' :: rest => pyIntTok rest
  | '-' :: rest => (pyIntTok rest).map Int.neg
  | rest => pyIntTok rest

/-- `int()` lifted to `String`; `none` models a `ValueError`. -/
def pyInt (s : String) : Option Int := pyIntCore s.data

/-- Value of a Python `float`: an exact rational or a special value. -/
inductive PyFloat where
  | finite (q : ℚ)
  | inf
  | neginf
  | nan
deriving DecidableEq

/-- Unary minus on `PyFloat` (sign applied by `float()`). -/
def PyFloat.negate : PyFloat → PyFloat
  | .finite q => .finite (-q)
  | .inf => .neginf
  | .neginf => .inf
  | .nan => .nan

/-- Split a character list at the first character satisfying `p`. -/
def splitOnce (p : Char → Bool) : List Char → Option (List Char × List Char)
  | [] => none
  | c :: rest =>
    if p c then some ([], rest)
    else (splitOnce p rest).map (fun ab => (c :: ab.1, ab.2))

/-- Mantissa of a float literal: digit run with at most one point and at
least one digit; exact rational value `ip + fp / 10 ^ |fp|`, written as a
single `mkRat` fraction so that it evaluates by kernel reduction. -/
def parseMantissa (l : List Char) : Option ℚ :=
  match splitOnce (fun c => c = '.') l with
  | none => if udigits l then some ((digitsVal (noUnd l) : ℚ)) else none
  | some (ip, fp) =>
    if ip.isEmpty && fp.isEmpty then none
    else if (ip.isEmpty || udigits ip) && (fp.isEmpty || udigits fp) then
      some (mkRat
        ((digitsVal (noUnd ip) * 10 ^ (noUnd fp).length + digitsVal (noUnd fp) : Nat) : Int)
        (10 ^ (noUnd fp).length))
    else none

/-- `q * 10 ^ e` for an integer exponent, written with `mkRat` so that it
evaluates by kernel reduction; see `scale10_eq`. -/
def scale10 (q : ℚ) (e : Int) : ℚ :=
  if 0 ≤ e then mkRat (q.num * 10 ^ e.toNat) q.den
  else mkRat q.num (q.den * 10 ^ (-e).toNat)

/-- `q / n` for a natural divisor, written with `mkRat` so that it
evaluates by kernel reduction; see `qDivNat_eq`. -/
def qDivNat (q : ℚ) (n : Nat) : ℚ := mkRat q.num (q.den * n)

/-- `q * z` for an integer factor, written with `mkRat` so that it
evaluates by kernel reduction; see `qMulInt_eq`. -/
def qMulInt (q : ℚ) (z : Int) : ℚ := mkRat (q.num * z) q.den

/-- Exponent part of a float literal: optional sign then digit run. -/
def parseExp (l : List Char) : Option Int :=
  match l with
  | '+' :: rest => if udigits rest then some ((digitsVal (noUnd rest) : Int)) else none
  | '-' :: rest => if udigits rest then some (-(digitsVal (noUnd rest) : Int)) else none
  | rest => if udigits rest then some ((digitsVal (noUnd rest) : Int)) else none

/-- Decimal float literal: mantissa with optional `e`/`E` exponent; the
value is `mv * 10 ^ ev`. -/
def parseDecimal (l : List Char) : Option ℚ :=
  match splitOnce (fun c => c = 'e' || c = 'E') l with
  | none => parseMantissa l
  | some (m, e) =>
    match parseMantissa m, parseExp e with
    | some mv, some ev => some (scale10 mv ev)
    | _, _ => none

/-- Case-insensitive comparison with a keyword. -/
def lowerEq (l : List Char) (s : String) : Bool := l.map Char.toLower == s.data

/-- Unsigned part of `float(str)`: `inf`, `infinity`, `nan` or a decimal. -/
def pyFloatMag (l : List Char) : Option PyFloat :=
  if lowerEq l "inf" || lowerEq l "infinity" then some .inf
  else if lowerEq l "nan" then some .nan
  else (parseDecimal l).map .finite

/-- Python `float(str)`: strip whitespace, optional sign, magnitude;
`none` models a `ValueError`. -/
def pyFloatCore (l : List Char) : Option PyFloat :=
  match pyStrip l with
  | '+' :: rest => pyFloatMag rest
  | '-' :: rest => (pyFloatMag rest).map PyFloat.negate
  | rest => pyFloatMag rest

/-- `s[:s.rindex(sep)]`: everything before the last occurrence of `sep`,
or `none` (a `ValueError`) when `sep` does not occur. -/
def beforeLast (sep : Char) : List Char → Option (List Char)
  | [] => none
  | c :: rest =>
    match beforeLast sep rest with
    | some p => some (c :: p)
    | none => if c = sep then some [] else none

/-- Python 3 `round` on an exact rational: round to nearest, ties to even
(the CPython runtime applies this rule to the double's exact value; we
apply it to the exact rational standing for that double).  The fractional
part `q - ⌊q⌋` is compared with `1/2` through the integer
`t = 2 * (q.num - ⌊q⌋ * q.den)`, which equals `(q - ⌊q⌋) * 2 * q.den`:
`t < q.den` iff the fraction is below one half, and so on. -/
def pyRound (q : ℚ) : Int :=
  if 2 * (q.num - ⌊q⌋ * (q.den : Int)) < (q.den : Int) then ⌊q⌋
  else if (q.den : Int) < 2 * (q.num - ⌊q⌋ * (q.den : Int)) then ⌊q⌋ + 1
  else if ⌊q⌋ % 2 = 0 then ⌊q⌋ else ⌊q⌋ + 1

/-- Gregorian leap-year rule used by `datetime.date`. -/
def isLeapYear (y : Nat) : Bool :=
  y % 4 = 0 && (y % 100 != 0 || y % 400 = 0)

/-- Number of days of month `m` of year `y` (as validated by
`datetime.date`). -/
def daysInMonth (y m : Nat) : Nat :=
  if m = 2 then (if isLeapYear y then 29 else 28)
  else if m = 4 ∨ m = 6 ∨ m = 9 ∨ m = 11 then 30
  else 31

/-- `_strptime`'s `%m` token: one or two digits with value 1..12. -/
def monthTokOk (p : List Char) : Bool :=
  !p.isEmpty && decide (p.length ≤ 2) && p.all Char.isDigit &&
    decide (1 ≤ digitsVal p) && decide (digitsVal p ≤ 12)

/-- `_strptime`'s `%d` token: one or two digits with value 1..31. -/
def dayTokOk (p : List Char) : Bool :=
  !p.isEmpty && decide (p.length ≤ 2) && p.all Char.isDigit &&
    decide (1 ≤ digitsVal p) && decide (digitsVal p ≤ 31)

/-- `_strptime`'s `%Y` token: exactly four digits. -/
def yearTokOk (p : List Char) : Bool :=
  decide (p.length = 4) && p.all Char.isDigit

/-- `time.strptime(s, '%m/%d/%Y')`.  The token regexes force the three
slash-free digit groups; `_strptime` then builds `datetime.date(y, m, d)`,
which raises `ValueError` for year 0 or a day beyond the month's length. -/
def strptimeMdY (l : List Char) : Option (Nat × Nat × Nat) :=
  match pySplit '/' l with
  | [ms, ds, ys] =>
    if monthTokOk ms && dayTokOk ds && yearTokOk ys then
      let m := digitsVal ms
      let d := digitsVal ds
      let y := digitsVal ys
      if decide (1 ≤ y) && decide (d ≤ daysInMonth y m) then some (m, d, y)
      else none
    else none
  | _ => none

/-- Zero-pad a number to two digits (`strftime` `%m` / `%d`). -/
def pad2 (n : Nat) : String := if n < 10 then "0" ++ toString n else toString n

/-- `time.strftime('%Y-%m-%d', t)`: unpadded year (glibc), padded month
and day. -/
def fmtDate (y m d : Nat) : String :=
  toString y ++ "-" ++ pad2 m ++ "-" ++ pad2 d

/-- `get_date` of the source: parse `MM/DD/YYYY`, reformat to
`YYYY-MM-DD`, or fail with `'invalid date format'`. -/
def get_date (raw_date : String) : Item String :=
  match strptimeMdY raw_date.data with
  | some (m, d, y) => ⟨some (fmtDate y m d), "OK"⟩
  | none => ⟨none, "invalid date format"⟩

/-- `get_country` of the source: `state_country.get(state, 'XXX')` with
message `'OK'`.  The subdivision index built from pycountry is modelled
as an abstract lookup function. -/
def get_country (state : String) (state_country : String → Option String) :
    Item String :=
  ⟨some ((state_country state).getD "XXX"), "OK"⟩

/-- `get_impressions` of the source: `int(raw)`, then `assert ≥ 0`. -/
def get_impressions (raw_impress : String) : Item Int :=
  match pyInt raw_impress with
  | none => ⟨none, "value of number of impressions is not an integer"⟩
  | some n =>
    if 0 ≤ n then ⟨some n, "OK"⟩
    else ⟨none, "value of number of impressions is negative"⟩

/-- Diagnostic of `get_clicks` for any `ValueError`. -/
def clicksFmtMsg : String :=
  "unable to compute number of clicks due to invalid format of ctr and/or number of impressions"

/-- Diagnostic of `get_clicks` for a failed range assertion. -/
def ctrRangeMsg : String := "ctr percentage is outside [0, 100] interval"

/-- `get_clicks` of the source: `int(raw_impress)`,
`float(raw_ctr[:raw_ctr.rindex('%')]) / 100`, `assert 1 >= ctr >= 0`,
`round(ctr * impress_count)`.  A chained comparison on `inf`/`-inf`/`nan`
is false, so those fall into the `AssertionError` branch. -/
def get_clicks (raw_impress raw_ctr : String) : Item Int :=
  match pyInt raw_impress with
  | none => ⟨none, clicksFmtMsg⟩
  | some n =>
    match beforeLast '%' raw_ctr.data with
    | none => ⟨none, clicksFmtMsg⟩
    | some pre =>
      match pyFloatCore pre with
      | none => ⟨none, clicksFmtMsg⟩
      | some (.finite x) =>
        if 0 ≤ qDivNat x 100 ∧ qDivNat x 100 ≤ 1 then
          ⟨some (pyRound (qMulInt (qDivNat x 100) n)), "OK"⟩
        else ⟨none, ctrRangeMsg⟩
      | some _ => ⟨none, ctrRangeMsg⟩

/-- One record of the `metrics` table. -/
structure Row where
  date : String
  country : String
  impressions : Int
  clicks : Int
deriving DecidableEq

/-- Python falsiness of an optional string (`None` and `''` are falsy). -/
def optStrFalsy : Option String → Bool
  | none => true
  | some s => s.isEmpty

/-- Python falsiness of an optional integer (`None` and `0` are falsy). -/
def optIntFalsy : Option Int → Bool
  | none => true
  | some n => n == 0

/-- The diagnostic of a rejected row: the source joins with `' & '` the
messages of the items whose `val` is falsy (`if not item.val`), in the
dict's insertion order date, country, impressions, clicks. -/
def rowErrMsg (d c : Item String) (i k : Item Int) : String :=
  String.intercalate " & "
    ((if optStrFalsy d.val then [d.msg] else []) ++
     (if optStrFalsy c.val then [c.msg] else []) ++
     (if optIntFalsy i.val then [i.msg] else []) ++
     (if optIntFalsy k.val then [k.msg] else []))

/-- Body of the `read_data` loop for one already-split line: index error
on fewer than four fields, otherwise accept iff no `val` is `None`
(`None in [item.val for item in entry.values()]`). -/
def processFields (sc : String → Option String) : List String → Except String Row
  | f0 :: f1 :: f2 :: f3 :: _ =>
    let d := get_date f0
    let c := get_country f1 sc
    let i := get_impressions f2
    let k := get_clicks f2 f3
    match d.val, c.val, i.val, k.val with
    | some dv, some cv, some iv, some kv => .ok ⟨dv, cv, iv, kv⟩
    | _, _, _, _ => .error (rowErrMsg d c i k)
  | _ => .error "missing column"

/-- Processing of one raw line: `line.split(',')` then `processFields`. -/
def processLine (sc : String → Option String) (line : String) :
    Except String Row :=
  processFields sc (pySplitStr ',' line)

/-- Effect of one line on the loop state (inserted rows, error count):
a valid row is inserted, an invalid one increments `error_count`. -/
def stepLine (sc : String → Option String) (st : List Row × Nat)
    (line : String) : List Row × Nat :=
  match processLine sc line with
  | .ok r => (st.1 ++ [r], st.2)
  | .error _ => (st.1, st.2 + 1)

/-- The `read_data` loop over a list of decoded lines, starting from the
given state. -/
def read_data (sc : String → Option String) (st : List Row × Nat)
    (lines : List String) : List Row × Nat :=
  lines.foldl (stepLine sc) st

/-- Outcome of decoding the input file under one encoding.  Python
decodes lazily: on a decode error the lines decoded so far have already
been yielded and processed, then `UnicodeError` is raised. -/
inductive DecodeOutcome where
  | ok (lines : List String)
  | failAfter (pre : List String)
deriving DecidableEq

/-- A file, characterised by its decode outcome under each encoding. -/
structure FileModel where
  utf8 : DecodeOutcome
  utf16 : DecodeOutcome

/-- One call of `read_data` on the shared cursor: rows are inserted as
lines are processed; on a decode failure the rows inserted so far remain
in the database and no error count is returned (the local counter is
lost with the exception). -/
def readOutcome (sc : String → Option String) (rows : List Row)
    (o : DecodeOutcome) : List Row × Option Nat :=
  match o with
  | .ok ls =>
    let st := read_data sc (rows, 0) ls
    (st.1, some st.2)
  | .failAfter pre => ((read_data sc (rows, 0) pre).1, none)

/-- Group key of a row. -/
def rowKey (r : Row) : String × String := (r.date, r.country)

/-- sqlite's `ORDER BY date, country`: lexicographic order on the key. -/
def keyLe (a b : String × String) : Prop :=
  a.1 < b.1 ∨ (a.1 = b.1 ∧ a.2 ≤ b.2)

instance : DecidableRel keyLe := fun a b =>
  inferInstanceAs (Decidable (a.1 < b.1 ∨ (a.1 = b.1 ∧ a.2 ≤ b.2)))

instance : IsTotal (String × String) keyLe := ⟨by
  intro a b
  unfold keyLe
  rcases lt_trichotomy a.1 b.1 with h | h | h
  · exact Or.inl (Or.inl h)
  · rcases le_total a.2 b.2 with h2 | h2
    · exact Or.inl (Or.inr ⟨h, h2⟩)
    · exact Or.inr (Or.inr ⟨h.symm, h2⟩)
  · exact Or.inr (Or.inl h)⟩

instance : IsTrans (String × String) keyLe := ⟨by
  intro a b c hab hbc
  unfold keyLe at hab hbc ⊢
  rcases hab with h1 | ⟨h1, h1'⟩
  · rcases hbc with h2 | ⟨h2, h2'⟩
    · exact Or.inl (lt_trans h1 h2)
    · exact Or.inl (h2 ▸ h1)
  · rcases hbc with h2 | ⟨h2, h2'⟩
    · exact Or.inl (h1 ▸ h2)
    · exact Or.inr ⟨h1.trans h2, le_trans h1' h2'⟩⟩

instance : IsAntisymm (String × String) keyLe := ⟨by
  intro a b hab hba
  unfold keyLe at hab hba
  rcases hab with h1 | ⟨h1, h1'⟩
  · rcases hba with h2 | ⟨h2, h2'⟩
    · exact absurd (lt_trans h1 h2) (lt_irrefl _)
    · exact absurd h1 (by rw [h2]; exact lt_irrefl _)
  · rcases hba with h2 | ⟨h2, h2'⟩
    · exact absurd h2 (by rw [h1]; exact lt_irrefl _)
    · exact Prod.ext h1 (le_antisymm h1' h2')⟩

/-- `SUM(impressions)` of the group of key `k`. -/
def sumImpressions (rows : List Row) (k : String × String) : Int :=
  ((rows.filter (fun r => decide (rowKey r = k))).map Row.impressions).sum

/-- `SUM(clicks)` of the group of key `k`. -/
def sumClicks (rows : List Row) (k : String × String) : Int :=
  ((rows.filter (fun r => decide (rowKey r = k))).map Row.clicks).sum

/-- `process_data` of the source:
`SELECT date, country, SUM(impressions), SUM(clicks) FROM metrics
GROUP BY date, country ORDER BY date, country`, over the list of rows
standing for the `metrics` table. -/
def process_data (rows : List Row) : List (String × String × Int × Int) :=
  (List.insertionSort keyLe ((rows.map rowKey).dedup)).map
    (fun k => (k.1, k.2, sumImpressions rows k, sumClicks rows k))

/-- `main` of the source, over the decode model: try utf-8; on a decode
failure retry utf-16 on the same cursor (hence keeping the rows already
inserted); a second failure aborts with no report. -/
def mainModel (sc : String → Option String) (f : FileModel) :
    Option (List (String × String × Int × Int) × Nat) :=
  match readOutcome sc [] f.utf8 with
  | (rows, some e) => some (process_data rows, e)
  | (rows, none) =>
    match readOutcome sc rows f.utf16 with
    | (rows2, some e) => some (process_data rows2, e)
    | (_, none) => none

/-- Concrete subdivision index used at concrete inputs (pycountry maps
the subdivision name `California` to the alpha-3 code `USA`). -/
def scCal : String → Option String :=
  fun s => if s = "California" then some "USA" else none

/-- The claim's strict reading of `MM/DD/YYYY`: zero-padded two-digit
month and day, exactly four-digit year, month 1-12, day valid for the
month and year.  Spec-side definition, used only to state claim C5 as
written and compare it with the code's `get_date`. -/
def specStrictDate (l : List Char) : Option (Nat × Nat × Nat) :=
  match pySplit '/' l with
  | [ms, ds, ys] =>
    if ms.length = 2 ∧ (∀ c ∈ ms, c.isDigit = true) ∧
        1 ≤ digitsVal ms ∧ digitsVal ms ≤ 12 ∧
        ds.length = 2 ∧ (∀ c ∈ ds, c.isDigit = true) ∧ 1 ≤ digitsVal ds ∧
        ys.length = 4 ∧ (∀ c ∈ ys, c.isDigit = true) ∧ 1 ≤ digitsVal ys ∧
        digitsVal ds ≤ daysInMonth (digitsVal ys) (digitsVal ms)
    then some (digitsVal ms, digitsVal ds, digitsVal ys) else none
  | _ => none

/-- The loose date format actually accepted by `strptime('%m/%d/%Y')`:
one- or two-digit month 1-12, one- or two-digit day valid for the month
and year, exactly four-digit year at least 0001. -/
def LooseDate (ms ds ys : List Char) : Prop :=
  ms ≠ [] ∧ ms.length ≤ 2 ∧ (∀ c ∈ ms, c.isDigit = true) ∧
    1 ≤ digitsVal ms ∧ digitsVal ms ≤ 12 ∧
    ds ≠ [] ∧ ds.length ≤ 2 ∧ (∀ c ∈ ds, c.isDigit = true) ∧
    1 ≤ digitsVal ds ∧
    ys.length = 4 ∧ (∀ c ∈ ys, c.isDigit = true) ∧ 1 ≤ digitsVal ys ∧
    digitsVal ds ≤ daysInMonth (digitsVal ys) (digitsVal ms)

instance (ms ds ys : List Char) : Decidable (LooseDate ms ds ys) := by
  unfold LooseDate
  infer_instance

/-- A file whose utf-8 decoding yields one valid csv line and then hits a
decode error, while its utf-16 decoding succeeds with one (invalid) line
— e.g. several kilobytes of ASCII csv followed by the bytes `FF FD`,
which are invalid utf-8 but a valid utf-16 code unit. -/
def fileBadUtf8 : FileModel :=
  ⟨.failAfter ["01/15/2019,California,1000,25.5%"], .ok ["garbage line"]⟩

/-- A file holding, as clean utf-8, exactly the content that `fileBadUtf8`
decodes to under the utf-16 fallback. -/
def fileCleanUtf8 : FileModel := ⟨.ok ["garbage line"], .ok []⟩

/-! ### Helper lemmas about `pySplit` -/

theorem pySplit_ne_nil (sep : Char) (l : List Char) : pySplit sep l ≠ [] := by
  cases l with
  | nil => simp [pySplit]
  | cons c rest =>
    by_cases h : c = sep
    · simp [pySplit, h]
    · simp only [pySplit, if_neg h]
      cases hr : pySplit sep rest <;> simp

theorem pySplit_not_mem {sep : Char} {l : List Char} (h : sep ∉ l) :
    pySplit sep l = [l] := by
  induction l with
  | nil => rfl
  | cons c rest ih =>
    simp only [List.mem_cons, not_or] at h
    obtain ⟨h1, h2⟩ := h
    have hc : ¬ c = sep := fun he => h1 he.symm
    simp [pySplit, if_neg hc, ih h2]

theorem pySplit_append {sep : Char} {a rest : List Char} (h : sep ∉ a) :
    pySplit sep (a ++ sep :: rest) = a :: pySplit sep rest := by
  induction a with
  | nil => simp [pySplit]
  | cons c t ih =>
    simp only [List.mem_cons, not_or] at h
    obtain ⟨h1, h2⟩ := h
    have hc : ¬ c = sep := fun he => h1 he.symm
    simp [pySplit, if_neg hc, ih h2]

theorem pySplit_eq_single {sep : Char} {l a : List Char}
    (h : pySplit sep l = [a]) : l = a ∧ sep ∉ a := by
  induction l generalizing a with
  | nil =>
    simp only [pySplit] at h
    injection h with h1 _
    subst h1
    exact ⟨rfl, by simp⟩
  | cons c t ih =>
    by_cases hc : c = sep
    · simp only [pySplit, if_pos hc] at h
      injection h with _ h2
      exact absurd h2 (pySplit_ne_nil sep t)
    · simp only [pySplit, if_neg hc] at h
      cases hq : pySplit sep t with
      | nil => exact absurd hq (pySplit_ne_nil sep t)
      | cons q qs =>
        rw [hq] at h
        injection h with ha hqs
        subst hqs
        obtain ⟨rfl, hmem⟩ := ih hq
        subst ha
        refine ⟨rfl, ?_⟩
        simp only [List.mem_cons, not_or]
        exact ⟨fun he => hc he.symm, hmem⟩

theorem pySplit_eq_cons {sep : Char} {l a p : List Char} {ps : List (List Char)}
    (h : pySplit sep l = a :: p :: ps) :
    ∃ rest, l = a ++ sep :: rest ∧ sep ∉ a ∧ pySplit sep rest = p :: ps := by
  induction l generalizing a with
  | nil =>
    simp only [pySplit] at h
    have : ([] : List (List Char)) = p :: ps := by injection h with _ h2
    exact absurd this.symm (by simp)
  | cons c t ih =>
    by_cases hc : c = sep
    · simp only [pySplit, if_pos hc] at h
      have ha : ([] : List Char) = a := by injection h
      have h2 : pySplit sep t = p :: ps := by injection h with _ h2
      exact ⟨t, by rw [← ha, hc]; rfl, by rw [← ha]; simp, h2⟩
    · simp only [pySplit, if_neg hc] at h
      cases hq : pySplit sep t with
      | nil => exact absurd hq (pySplit_ne_nil sep t)
      | cons q qs =>
        rw [hq] at h
        have ha : c :: q = a := by injection h
        have hqs : qs = p :: ps := by injection h with _ h2
        rw [hqs] at hq
        obtain ⟨rest, rfl, hmem, hrest⟩ := ih hq
        refine ⟨rest, by rw [← ha]; rfl, ?_, hrest⟩
        rw [← ha]
        simp only [List.mem_cons, not_or]
        exact ⟨fun he => hc he.symm, hmem⟩

theorem pySplit_eq_three {sep : Char} {l a b c : List Char}
    (h : pySplit sep l = [a, b, c]) :
    l = a ++ sep :: (b ++ sep :: c) ∧ sep ∉ a ∧ sep ∉ b ∧ sep ∉ c := by
  obtain ⟨r1, rfl, hma, h1⟩ := pySplit_eq_cons h
  obtain ⟨r2, rfl, hmb, h2⟩ := pySplit_eq_cons h1
  obtain ⟨rfl, hmc⟩ := pySplit_eq_single h2
  exact ⟨rfl, hma, hmb, hmc⟩

/-- C2: the claim says the diagnostic of a rejected 4-field row joins
exactly the failing fields' messages; the code filters on falsiness
(`if not item.val`), so succeeded fields whose value is the integer 0
contribute their `'OK'` message.  On `bad,California,0,50%` (date fails,
impressions and clicks succeed with value 0) the emitted diagnostic is
`'invalid date format & OK & OK'`, not `'invalid date format'`. -/
theorem c2_zero_valued_fields_pollute_diagnostic :
    processLine scCal "bad,California,0,50%" =
      .error "invalid date format & OK & OK" ∧
    get_impressions "0" = ⟨some 0, "OK"⟩ ∧
    get_clicks "0" "50%" = ⟨some 0, "OK"⟩ := by
  refine ⟨rfl, by decide, by decide⟩

/-- C7: row processing is atomic — every line either yields exactly one
committed row whose four components are the (all present) normalized
field values, or is rejected in full: no row is appended and the error
count increments by exactly one. -/
theorem c7_row_atomicity (sc : String → Option String) (st : List Row × Nat)
    (line : String) :
    (∃ r f0 f1 f2 f3 rest,
        pySplitStr ',' line = f0 :: f1 :: f2 :: f3 :: rest ∧
        processLine sc line = .ok r ∧
        stepLine sc st line = (st.1 ++ [r], st.2) ∧
        (get_date f0).val = some r.date ∧
        (get_country f1 sc).val = some r.country ∧
        (get_impressions f2).val = some r.impressions ∧
        (get_clicks f2 f3).val = some r.clicks) ∨
    (∃ e, processLine sc line = .error e ∧
        stepLine sc st line = (st.1, st.2 + 1)) := by
  cases hsplit : pySplitStr ',' line with
  | nil =>
    right
    exact ⟨"missing column", by simp [processLine, hsplit, processFields],
      by simp [stepLine, processLine, hsplit, processFields]⟩
  | cons f0 l1 =>
    cases l1 with
    | nil =>
      right
      exact ⟨"missing column", by simp [processLine, hsplit, processFields],
        by simp [stepLine, processLine, hsplit, processFields]⟩
    | cons f1 l2 =>
      cases l2 with
      | nil =>
        right
        exact ⟨"missing column", by simp [processLine, hsplit, processFields],
          by simp [stepLine, processLine, hsplit, processFields]⟩
      | cons f2 l3 =>
        cases l3 with
        | nil =>
          right
          exact ⟨"missing column", by simp [processLine, hsplit, processFields],
            by simp [stepLine, processLine, hsplit, processFields]⟩
        | cons f3 rest =>
          cases hd : (get_date f0).val with
          | none =>
            right
            refine ⟨rowErrMsg (get_date f0) (get_country f1 sc)
              (get_impressions f2) (get_clicks f2 f3), ?_, ?_⟩
            · simp [processLine, hsplit, processFields, hd]
            · simp [stepLine, processLine, hsplit, processFields, hd]
          | some dv =>
            cases hc : (get_country f1 sc).val with
            | none =>
              right
              refine ⟨rowErrMsg (get_date f0) (get_country f1 sc)
                (get_impressions f2) (get_clicks f2 f3), ?_, ?_⟩
              · simp [processLine, hsplit, processFields, hd, hc]
              · simp [stepLine, processLine, hsplit, processFields, hd, hc]
            | some cv =>
              cases hi : (get_impressions f2).val with
              | none =>
                right
                refine ⟨rowErrMsg (get_date f0) (get_country f1 sc)
                  (get_impressions f2) (get_clicks f2 f3), ?_, ?_⟩
                · simp [processLine, hsplit, processFields, hd, hc, hi]
                · simp [stepLine, processLine, hsplit, processFields, hd, hc, hi]
              | some iv =>
                cases hk : (get_clicks f2 f3).val with
                | none =>
                  right
                  refine ⟨rowErrMsg (get_date f0) (get_country f1 sc)
                    (get_impressions f2) (get_clicks f2 f3), ?_, ?_⟩
                  · simp [processLine, hsplit, processFields, hd, hc, hi, hk]
                  · simp [stepLine, processLine, hsplit, processFields,
                      hd, hc, hi, hk]
                | some kv =>
                  left
                  exact ⟨⟨dv, cv, iv, kv⟩, f0, f1, f2, f3, rest, rfl,
                    by simp [processLine, hsplit, processFields, hd, hc, hi, hk],
                    by simp [stepLine, processLine, hsplit, processFields,
                      hd, hc, hi, hk],
                    hd, hc, hi, hk⟩

/-- C8: a line splitting into fewer than 4 fields is rejected with the
structural diagnostic `'missing column'` (a constant, independent of any
normalizer output), the error count increments by one and no row is
committed; a line splitting into more than 4 fields behaves exactly as
its first four fields (extra trailing fields are ignored). -/
theorem c8_missing_column (sc : String → Option String) (st : List Row × Nat)
    (line : String) :
    ((pySplitStr ',' line).length < 4 →
      processLine sc line = .error "missing column" ∧
      stepLine sc st line = (st.1, st.2 + 1)) ∧
    (∀ f0 f1 f2 f3 rest, pySplitStr ',' line = f0 :: f1 :: f2 :: f3 :: rest →
      processLine sc line = processFields sc [f0, f1, f2, f3]) := by
  constructor
  · intro hlen
    cases hsplit : pySplitStr ',' line with
    | nil => exact ⟨by simp [processLine, hsplit, processFields],
        by simp [stepLine, processLine, hsplit, processFields]⟩
    | cons f0 l1 =>
      cases l1 with
      | nil => exact ⟨by simp [processLine, hsplit, processFields],
          by simp [stepLine, processLine, hsplit, processFields]⟩
      | cons f1 l2 =>
        cases l2 with
        | nil => exact ⟨by simp [processLine, hsplit, processFields],
            by simp [stepLine, processLine, hsplit, processFields]⟩
        | cons f2 l3 =>
          cases l3 with
          | nil => exact ⟨by simp [processLine, hsplit, processFields],
              by simp [stepLine, processLine, hsplit, processFields]⟩
          | cons f3 rest =>
            rw [hsplit] at hlen
            simp at hlen
            omega
  · intro f0 f1 f2 f3 rest hsplit
    simp [processLine, hsplit, processFields]

/-- C8 witness: a 3-field line is rejected as `'missing column'` with the
error count incremented, and a 5-field line is processed exactly as its
first four fields. -/
theorem c8_missing_column_witness :
    (processLine scCal "a,b,c" = .error "missing column" ∧
      stepLine scCal ([], 0) "a,b,c" = ([], 1)) ∧
    processLine scCal "01/15/2019,California,1000,25.5%,x" =
      processFields scCal ["01/15/2019", "California", "1000", "25.5%"] := by
  refine ⟨(c8_missing_column scCal ([], 0) "a,b,c").1 (by decide),
    (c8_missing_column scCal ([], 0) "01/15/2019,California,1000,25.5%,x").2
      "01/15/2019" "California" "1000" "25.5%" ["x"] (by decide)⟩

/-- C9: the country normalizer always succeeds: its value is the index
lookup with default `'XXX'` (in particular `'XXX'` for names missing from
the index), and a row whose other three fields normalize successfully is
always accepted — no row is rejected on account of the country field. -/
theorem c9_country_never_fails (state : String) (sc : String → Option String)
    (f0 f2 f3 : String) (rest : List String)
    (hd : (get_date f0).val.isSome) (hi : (get_impressions f2).val.isSome)
    (hk : (get_clicks f2 f3).val.isSome) :
    (get_country state sc).val = some ((sc state).getD "XXX") ∧
    (sc state = none → (get_country state sc).val = some "XXX") ∧
    ∃ r : Row, processFields sc (f0 :: state :: f2 :: f3 :: rest) = .ok r ∧
      r.country = (sc state).getD "XXX" := by
  refine ⟨rfl, fun h => by simp [get_country, h], ?_⟩
  obtain ⟨dv, hdv⟩ := Option.isSome_iff_exists.mp hd
  obtain ⟨iv, hiv⟩ := Option.isSome_iff_exists.mp hi
  obtain ⟨kv, hkv⟩ := Option.isSome_iff_exists.mp hk
  exact ⟨⟨dv, (sc state).getD "XXX", iv, kv⟩,
    by simp [processFields, hdv, hiv, hkv, get_country], rfl⟩

/-- C9 witness: a subdivision name absent from the index resolves to
`'XXX'` and the row is still accepted when the other fields are valid. -/
theorem c9_country_never_fails_witness :
    (get_country "Atlantis" (fun _ => none)).val =
      some (((fun (_ : String) => none (α := String)) "Atlantis").getD "XXX") ∧
    ((fun (_ : String) => none (α := String)) "Atlantis" = none →
      (get_country "Atlantis" (fun _ => none)).val = some "XXX") ∧
    ∃ r : Row,
      processFields (fun _ => none)
        ("01/15/2019" :: "Atlantis" :: "10" :: "10%" :: []) = .ok r ∧
      r.country = ((fun (_ : String) => none (α := String)) "Atlantis").getD "XXX" :=
  c9_country_never_fails "Atlantis" (fun _ => none) "01/15/2019" "10" "10%" []
    (by decide) (by decide) (by decide)

/-! ### Bridges between the `mkRat` forms and ordinary ℚ arithmetic -/

theorem qDivNat_eq (q : ℚ) (n : Nat) : qDivNat q n = q / (n : ℚ) := by
  rw [qDivNat, Rat.mkRat_eq_div]
  push_cast
  rw [div_mul_eq_div_div]
  rw [Rat.num_div_den]

theorem qMulInt_eq (q : ℚ) (z : Int) : qMulInt q z = q * (z : ℚ) := by
  rw [qMulInt, Rat.mkRat_eq_div]
  push_cast
  conv_rhs => rw [← Rat.num_div_den q]
  rw [div_mul_eq_mul_div]

theorem scale10_eq (q : ℚ) (e : Int) : scale10 q e = q * (10 : ℚ) ^ e := by
  rw [scale10]
  split_ifs with h
  · have he : ((e.toNat : ℤ) : ℤ) = e := Int.toNat_of_nonneg h
    rw [Rat.mkRat_eq_div]
    push_cast
    conv_rhs => rw [← Rat.num_div_den q, ← he, zpow_natCast]
    rw [div_mul_eq_mul_div]
  · have ht : (((-e).toNat : ℕ) : ℤ) = -e := Int.toNat_of_nonneg (by omega)
    have he : e = -(((-e).toNat : ℕ) : ℤ) := by omega
    rw [Rat.mkRat_eq_div]
    push_cast
    conv_rhs => rw [← Rat.num_div_den q, he, zpow_neg, zpow_natCast]
    have h10 : ((10 : ℚ) ^ (-e).toNat) ≠ 0 := by positivity
    have hd : ((q.den : ℚ)) ≠ 0 := by
      exact_mod_cast q.den_pos.ne'
    field_simp

/-- The numerator of a rational is the rational times its denominator. -/
theorem qnum_eq (q : ℚ) : (q.num : ℚ) = q * (q.den : ℚ) := by
  have hd : ((q.den : ℚ)) ≠ 0 := by exact_mod_cast q.den_pos.ne'
  exact (div_eq_iff hd).mp (Rat.num_div_den q)

/-- Round-half-to-even of a value in `[0, I]` stays in `[0, I]`. -/
theorem pyRound_bounds {q : ℚ} {I : Int} (h0 : 0 ≤ q) (hI : q ≤ (I : ℚ)) :
    0 ≤ pyRound q ∧ pyRound q ≤ I := by
  have hdq : (0 : ℚ) < (q.den : ℚ) := by exact_mod_cast q.den_pos
  have hf0 : (0 : Int) ≤ ⌊q⌋ := Int.le_floor.mpr (by exact_mod_cast h0)
  have hfI : ⌊q⌋ ≤ I := by
    have h := Int.floor_le_floor hI
    rwa [Int.floor_intCast] at h
  have hfq : ((⌊q⌋ : ℤ) : ℚ) ≤ q := Int.floor_le q
  have hnum : (q.num : ℚ) = q * (q.den : ℚ) := qnum_eq q
  have hstep : ∀ ht : (q.den : ℤ) ≤ 2 * (q.num - ⌊q⌋ * (q.den : ℤ)), ⌊q⌋ + 1 ≤ I := by
    intro ht
    have htQ : ((q.den : ℤ) : ℚ) ≤ ((2 * (q.num - ⌊q⌋ * (q.den : ℤ)) : ℤ) : ℚ) := by
      exact_mod_cast ht
    push_cast at htQ
    rw [hnum] at htQ
    have h1 : (1 : ℚ) ≤ 2 * (q - (⌊q⌋ : ℚ)) := by
      have := (mul_le_mul_right hdq).mp (by linarith : 1 * (q.den : ℚ) ≤
        (2 * (q - (⌊q⌋ : ℚ))) * (q.den : ℚ))
      linarith
    have h2 : ((⌊q⌋ : ℤ) : ℚ) < (I : ℚ) := by linarith
    have h3 : ⌊q⌋ < I := by exact_mod_cast h2
    omega
  rw [pyRound]
  split_ifs with h1 h2 h3
  · exact ⟨hf0, hfI⟩
  · exact ⟨by omega, hstep (by omega)⟩
  · exact ⟨hf0, hfI⟩
  · exact ⟨by omega, hstep (by omega)⟩

/-- C3: for an accepted row with impressions `I ≥ 0` and a ctr string
whose percentage parses to `q ∈ [0, 100]`, the computed click count is
exactly `round(I * q / 100)` under the code's round-half-to-even, and it
lies in `[0, I]`; in particular the line
`01/15/2019,California,1000,25.5%` is accepted as
`(2019-01-15, USA, 1000, 255)`. -/
theorem c3_clicks_value_and_bounds (sc : String → Option String)
    (hsc : sc "California" = some "USA")
    (imprS ctrS : String) (I : Int) (q : ℚ)
    (hImp : pyInt imprS = some I) (hI0 : 0 ≤ I)
    (hq : (beforeLast '%' ctrS.data).bind pyFloatCore = some (.finite q))
    (h0 : 0 ≤ q) (h100 : q ≤ 100) :
    (get_clicks imprS ctrS).val = some (pyRound ((I : ℚ) * q / 100)) ∧
    0 ≤ pyRound ((I : ℚ) * q / 100) ∧ pyRound ((I : ℚ) * q / 100) ≤ I ∧
    processLine sc "01/15/2019,California,1000,25.5%" =
      .ok ⟨"2019-01-15", "USA", 1000, 255⟩ := by
  obtain ⟨pre, hb, hflt⟩ : ∃ pre, beforeLast '%' ctrS.data = some pre ∧
      pyFloatCore pre = some (.finite q) := by
    cases hb : beforeLast '%' ctrS.data with
    | none => rw [hb] at hq; simp at hq
    | some pre => rw [hb] at hq; exact ⟨pre, rfl, by simpa using hq⟩
  have hrange : 0 ≤ qDivNat q 100 ∧ qDivNat q 100 ≤ 1 := by
    rw [qDivNat_eq]
    constructor
    · exact div_nonneg h0 (by norm_num)
    · rw [div_le_one (by norm_num)]
      exact_mod_cast h100
  have hval : qMulInt (qDivNat q 100) I = (I : ℚ) * q / 100 := by
    rw [qMulInt_eq, qDivNat_eq]
    push_cast
    ring
  have hclicks : (get_clicks imprS ctrS).val =
      some (pyRound ((I : ℚ) * q / 100)) := by
    simp only [get_clicks, hImp, hb, hflt, if_pos hrange, hval]
  have hIQ : (0 : ℚ) ≤ (I : ℚ) := by exact_mod_cast hI0
  have hbnds : 0 ≤ pyRound ((I : ℚ) * q / 100) ∧
      pyRound ((I : ℚ) * q / 100) ≤ I := by
    apply pyRound_bounds
    · exact div_nonneg (mul_nonneg hIQ h0) (by norm_num)
    · rw [div_le_iff₀ (by norm_num : (0:ℚ) < 100)]
      nlinarith
  refine ⟨hclicks, hbnds.1, hbnds.2, ?_⟩
  · have h1 : pySplitStr ',' "01/15/2019,California,1000,25.5%" =
        ["01/15/2019", "California", "1000", "25.5%"] := by decide
    have hd : get_date "01/15/2019" = ⟨some "2019-01-15", "OK"⟩ := by decide
    have hi : get_impressions "1000" = ⟨some 1000, "OK"⟩ := by decide
    have hk : get_clicks "1000" "25.5%" = ⟨some 255, "OK"⟩ := by decide
    simp [processLine, h1, processFields, hd, hi, hk, get_country, hsc]

/-- C3 witness: the example line of the claim, through the full row
processor with the concrete index mapping California to USA. -/
theorem c3_clicks_value_and_bounds_witness :
    processLine scCal "01/15/2019,California,1000,25.5%" =
      .ok ⟨"2019-01-15", "USA", 1000, 255⟩ :=
  (c3_clicks_value_and_bounds scCal (by decide) "1000" "25.5%" 1000
    (mkRat 51 2) (by decide) (by decide) (by decide) (by decide)
    (by decide)).2.2.2

/-- C4 counterexample: for the valid in-range ctr string `50%`, the
impressions string `-5` is rejected by `get_impressions` (negative) but
accepted by the independent re-parse inside `get_clicks`, which returns
`round(-2.5) = -2`; the two parses do not agree on acceptance. -/
theorem c4_counterexample_negative_impressions :
    (beforeLast '%' "50%".data).bind pyFloatCore = some (.finite 50) ∧
    (0 : ℚ) ≤ 50 ∧ (50 : ℚ) ≤ 100 ∧
    (get_impressions "-5").val = none ∧
    (get_clicks "-5" "50%").val = some (-2) ∧
    ¬((get_impressions "-5").val.isSome ↔ (get_clicks "-5" "50%").val.isSome) := by
  exact ⟨by decide, by decide, by decide, by decide, by decide, by decide⟩

/-- C4 amended: for a valid in-range ctr, `get_clicks` accepts exactly
the impressions strings that parse as an integer, while
`get_impressions` accepts exactly the nonnegative ones; hence acceptance
by `get_impressions` implies acceptance by `get_clicks`, but not
conversely (negative integers separate them). -/
theorem c4_amended_acceptance (imprS ctrS : String) (q : ℚ)
    (hq : (beforeLast '%' ctrS.data).bind pyFloatCore = some (.finite q))
    (h0 : 0 ≤ q) (h100 : q ≤ 100) :
    ((get_clicks imprS ctrS).val.isSome ↔ (pyInt imprS).isSome) ∧
    ((get_impressions imprS).val.isSome ↔ ∃ n, pyInt imprS = some n ∧ 0 ≤ n) ∧
    ((get_impressions imprS).val.isSome → (get_clicks imprS ctrS).val.isSome) := by
  obtain ⟨pre, hb, hflt⟩ : ∃ pre, beforeLast '%' ctrS.data = some pre ∧
      pyFloatCore pre = some (.finite q) := by
    cases hb : beforeLast '%' ctrS.data with
    | none => rw [hb] at hq; simp at hq
    | some pre => rw [hb] at hq; exact ⟨pre, rfl, by simpa using hq⟩
  have hrange : 0 ≤ qDivNat q 100 ∧ qDivNat q 100 ≤ 1 := by
    rw [qDivNat_eq]
    refine ⟨div_nonneg h0 (by norm_num), ?_⟩
    rw [div_le_one (by norm_num)]
    exact_mod_cast h100
  have hck : ∀ n, pyInt imprS = some n →
      (get_clicks imprS ctrS).val = some (pyRound (qMulInt (qDivNat q 100) n)) := by
    intro n hn
    simp only [get_clicks, hn, hb, hflt, if_pos hrange]
  constructor
  · cases hn : pyInt imprS with
    | none => simp [get_clicks, hn]
    | some n => rw [hck n hn]; simp
  constructor
  · cases hn : pyInt imprS with
    | none => simp [get_impressions, hn]
    | some n =>
      simp only [get_impressions, hn]
      by_cases h : 0 ≤ n
      · simp only [if_pos h]
        simp only [Option.isSome_some, true_iff]
        exact ⟨n, rfl, h⟩
      · simp only [if_neg h]
        constructor
        · intro hcontr
          exact absurd hcontr (by simp)
        · rintro ⟨m, hm, hm0⟩
          injection hm with hmeq
          subst hmeq
          exact absurd hm0 h
  · intro h
    cases hn : pyInt imprS with
    | none => simp [get_impressions, hn] at h
    | some n => rw [hck n hn]; simp

/-- C4 witness: at the nonnegative impressions string `7` with the valid
ctr `50%`, all three parts of the amended statement hold. -/
theorem c4_amended_acceptance_witness :
    ((get_clicks "7" "50%").val.isSome ↔ (pyInt "7").isSome) ∧
    ((get_impressions "7").val.isSome ↔ ∃ n, pyInt "7" = some n ∧ 0 ≤ n) ∧
    ((get_impressions "7").val.isSome → (get_clicks "7" "50%").val.isSome) :=
  c4_amended_acceptance "7" "50%" 50 (by decide) (by decide) (by decide)

/-- C10: a row with a valid date, any subdivision name, impressions `0`
and a ctr whose rate lies in `[0, 1]` is accepted and committed as
`(date, country, 0, 0)`: the acceptance check tests for `None`
specifically, so zero-valued metrics never cause rejection. -/
theorem c10_zero_metrics_accepted (sc : String → Option String)
    (ds cs ctrs : String) (q : ℚ)
    (hdate : (get_date ds).val.isSome)
    (hq : (beforeLast '%' ctrs.data).bind pyFloatCore = some (.finite q))
    (h0 : 0 ≤ q) (h100 : q ≤ 100)
    (hds : ',' ∉ ds.data) (hcs : ',' ∉ cs.data) (hct : ',' ∉ ctrs.data) :
    ∃ dv, (get_date ds).val = some dv ∧
      processLine sc (ds ++ "," ++ cs ++ ",0," ++ ctrs) =
        .ok ⟨dv, (sc cs).getD "XXX", 0, 0⟩ := by
  obtain ⟨dv, hdv⟩ := Option.isSome_iff_exists.mp hdate
  obtain ⟨pre, hb, hflt⟩ : ∃ pre, beforeLast '%' ctrs.data = some pre ∧
      pyFloatCore pre = some (.finite q) := by
    cases hb : beforeLast '%' ctrs.data with
    | none => rw [hb] at hq; simp at hq
    | some pre => rw [hb] at hq; exact ⟨pre, rfl, by simpa using hq⟩
  have hdata : (ds ++ "," ++ cs ++ ",0," ++ ctrs).data
      = ds.data ++ ',' :: (cs.data ++ ',' :: ('0' :: (',' :: ctrs.data))) := by
    simp [String.data_append]
  have hsplit : pySplit ',' ((ds ++ "," ++ cs ++ ",0," ++ ctrs).data)
      = [ds.data, cs.data, ['0'], ctrs.data] := by
    rw [hdata, pySplit_append hds, pySplit_append hcs]
    have h0c : (',' : Char) ∉ ['0'] := by decide
    have hshape : ('0' :: (',' :: ctrs.data)) = ['0'] ++ ',' :: ctrs.data := rfl
    rw [hshape, pySplit_append h0c, pySplit_not_mem hct]
  have hfields : pySplitStr ',' (ds ++ "," ++ cs ++ ",0," ++ ctrs)
      = [ds, cs, "0", ctrs] := by
    rw [pySplitStr, hsplit]
    rfl
  have himp : get_impressions "0" = ⟨some 0, "OK"⟩ := by decide
  have hrange : 0 ≤ qDivNat q 100 ∧ qDivNat q 100 ≤ 1 := by
    rw [qDivNat_eq]
    refine ⟨div_nonneg h0 (by norm_num), ?_⟩
    rw [div_le_one (by norm_num)]
    exact_mod_cast h100
  have hkzero : qMulInt (qDivNat q 100) 0 = 0 := by
    rw [qMulInt_eq]
    push_cast
    ring
  have hr0 : pyRound 0 = 0 := by decide
  have hclk : get_clicks "0" ctrs = ⟨some 0, "OK"⟩ := by
    have hz : pyInt "0" = some 0 := by decide
    simp only [get_clicks, hz, hb, hflt, if_pos hrange, hkzero, hr0]
  refine ⟨dv, hdv, ?_⟩
  simp [processLine, hfields, processFields, hdv, himp, hclk, get_country]

/-- C10 witness: an unknown subdivision with impressions `0` and ctr
`50%` is accepted as `(2019-01-15, XXX, 0, 0)`. -/
theorem c10_zero_metrics_accepted_witness :
    ∃ dv, (get_date "01/15/2019").val = some dv ∧
      processLine (fun _ => (none : Option String))
          ("01/15/2019" ++ "," ++ "Nowhere" ++ ",0," ++ "50%") =
        .ok ⟨dv, (((fun _ => (none : Option String)) "Nowhere")).getD "XXX", 0, 0⟩ :=
  c10_zero_metrics_accepted (fun _ => (none : Option String)) "01/15/2019"
    "Nowhere" "50%" 50 (by decide) (by decide) (by decide) (by decide)
    (by decide) (by decide) (by decide)

/-- C6: aggregation is a pure function of the multiset of accepted rows:
permuting the rows yields an identical report; the report's key column is
sorted by `(date, country)` and has no duplicates; its keys are exactly
the keys occurring among the rows; and each entry carries the sums of the
impressions and clicks of exactly the rows with its key. -/
theorem c6_aggregation_order_independent (rows rows2 : List Row)
    (hperm : rows.Perm rows2) :
    process_data rows = process_data rows2 ∧
    List.Sorted keyLe ((process_data rows).map (fun e => (e.1, e.2.1))) ∧
    ((process_data rows).map (fun e => (e.1, e.2.1))).Nodup ∧
    (∀ k, k ∈ (process_data rows).map (fun e => (e.1, e.2.1)) ↔
      k ∈ rows.map rowKey) ∧
    (∀ e ∈ process_data rows,
      e.2.2.1 = sumImpressions rows (e.1, e.2.1) ∧
      e.2.2.2 = sumClicks rows (e.1, e.2.1)) := by
  have hkeys : ∀ rs : List Row, ((process_data rs).map (fun e => (e.1, e.2.1)))
      = List.insertionSort keyLe ((rs.map rowKey).dedup) := by
    intro rs
    rw [process_data, List.map_map]
    have hcomp : ((fun e : String × String × Int × Int => (e.1, e.2.1)) ∘
        (fun k : String × String =>
          (k.1, k.2, sumImpressions rs k, sumClicks rs k))) = id := by
      funext k
      rfl
    rw [hcomp, List.map_id]
  have hkperm : (List.insertionSort keyLe ((rows.map rowKey).dedup)).Perm
      (List.insertionSort keyLe ((rows2.map rowKey).dedup)) := by
    refine (List.perm_insertionSort keyLe _).trans (.trans ?_
      (List.perm_insertionSort keyLe _).symm)
    exact (hperm.map rowKey).dedup
  have hkeq : List.insertionSort keyLe ((rows.map rowKey).dedup)
      = List.insertionSort keyLe ((rows2.map rowKey).dedup) :=
    List.eq_of_perm_of_sorted hkperm
      (List.sorted_insertionSort keyLe _) (List.sorted_insertionSort keyLe _)
  have hsum1 : ∀ k, sumImpressions rows k = sumImpressions rows2 k := fun k =>
    (((hperm.filter (fun r => decide (rowKey r = k))).map Row.impressions)).sum_eq
  have hsum2 : ∀ k, sumClicks rows k = sumClicks rows2 k := fun k =>
    (((hperm.filter (fun r => decide (rowKey r = k))).map Row.clicks)).sum_eq
  refine ⟨?_, ?_, ?_, ?_, ?_⟩
  · rw [process_data, process_data, hkeq]
    simp only [sumImpressions, sumClicks] at hsum1 hsum2 ⊢
    simp only [hsum1, hsum2]
  · rw [hkeys rows]
    exact List.sorted_insertionSort keyLe _
  · rw [hkeys rows]
    exact ((List.perm_insertionSort keyLe _).nodup_iff).mpr (List.nodup_dedup _)
  · intro k
    rw [hkeys rows, (List.perm_insertionSort keyLe _).mem_iff, List.mem_dedup]
  · intro e he
    rw [process_data] at he
    obtain ⟨k, hk, rfl⟩ := List.mem_map.mp he
    exact ⟨rfl, rfl⟩

/-- C6 witness: two equal-keyed rows aggregate to the same report in
either arrival order. -/
theorem c6_aggregation_order_independent_witness :
    process_data [⟨"2019-01-01", "USA", 100, 10⟩, ⟨"2019-01-01", "USA", 50, 10⟩]
      = process_data
        [⟨"2019-01-01", "USA", 50, 10⟩, ⟨"2019-01-01", "USA", 100, 10⟩] :=
  (c6_aggregation_order_independent
    [⟨"2019-01-01", "USA", 100, 10⟩, ⟨"2019-01-01", "USA", 50, 10⟩]
    [⟨"2019-01-01", "USA", 50, 10⟩, ⟨"2019-01-01", "USA", 100, 10⟩]
    (by decide)).1

/-- Every month has at most 31 days. -/
theorem daysInMonth_le31 (y m : Nat) : daysInMonth y m ≤ 31 := by
  unfold daysInMonth
  split_ifs <;> omega

/-- C5 counterexample: `1/15/2019` is not of the form `MM/DD/YYYY`
(one-digit month), yet `get_date` accepts it — `strptime`'s `%m` and `%d`
also match single digits — so the claim's "every other input string
returns no value" direction is false. -/
theorem c5_counterexample_one_digit_month :
    specStrictDate "1/15/2019".data = none ∧
    get_date "1/15/2019" = ⟨some "2019-01-15", "OK"⟩ := by
  exact ⟨by decide, by decide⟩

/-- C5 amended: `get_date` succeeds exactly on strings of the loose form
`M(M)/D(D)/YYYY` — one- or two-digit month 1-12 and day valid for the
month and year, exactly four-digit year at least 0001 — reformatting with
zero-padded month and day; every other string yields no value with
diagnostic `'invalid date format'`. -/
theorem c5_amended_loose_format (s : String) :
    (∀ ms ds ys, s.data = ms ++ '/' :: (ds ++ '/' :: ys) → LooseDate ms ds ys →
      get_date s =
        ⟨some (fmtDate (digitsVal ys) (digitsVal ms) (digitsVal ds)), "OK"⟩) ∧
    ((¬ ∃ ms ds ys, s.data = ms ++ '/' :: (ds ++ '/' :: ys) ∧
        LooseDate ms ds ys) →
      get_date s = ⟨none, "invalid date format"⟩) := by
  constructor
  · intro ms ds ys hs hl
    obtain ⟨hm1, hm2, hm3, hm4, hm5, hd1, hd2, hd3, hd4, hy1, hy2, hy3, hcal⟩ := hl
    have hnm : '/' ∉ ms := fun hmem => absurd (hm3 _ hmem) (by decide)
    have hnd : '/' ∉ ds := fun hmem => absurd (hd3 _ hmem) (by decide)
    have hny : '/' ∉ ys := fun hmem => absurd (hy2 _ hmem) (by decide)
    have hsplit : pySplit '/' s.data = [ms, ds, ys] := by
      rw [hs, pySplit_append hnm, pySplit_append hnd, pySplit_not_mem hny]
    have hmonth : monthTokOk ms = true := by
      simp only [monthTokOk, Bool.and_eq_true, decide_eq_true_eq,
        List.all_eq_true, Bool.not_eq_true', List.isEmpty_eq_false]
      exact ⟨⟨⟨⟨by simpa using hm1, hm2⟩, hm3⟩, hm4⟩, hm5⟩
    have hday : dayTokOk ds = true := by
      simp only [dayTokOk, Bool.and_eq_true, decide_eq_true_eq,
        List.all_eq_true, Bool.not_eq_true', List.isEmpty_eq_false]
      have h31 : digitsVal ds ≤ 31 :=
        le_trans hcal (daysInMonth_le31 (digitsVal ys) (digitsVal ms))
      exact ⟨⟨⟨⟨by simpa using hd1, hd2⟩, hd3⟩, hd4⟩, h31⟩
    have hyear : yearTokOk ys = true := by
      simp only [yearTokOk, Bool.and_eq_true, decide_eq_true_eq,
        List.all_eq_true]
      exact ⟨hy1, hy2⟩
    have hstrp : strptimeMdY s.data =
        some (digitsVal ms, digitsVal ds, digitsVal ys) := by
      simp [strptimeMdY, hsplit, hmonth, hday, hyear, hy3, hcal]
    simp [get_date, hstrp]
  · intro hne
    cases hst : strptimeMdY s.data with
    | none => simp [get_date, hst]
    | some v =>
      exfalso
      apply hne
      rcases hps : pySplit '/' s.data with _ | ⟨ms, _ | ⟨ds, _ | ⟨ys, _ | ⟨w, ws⟩⟩⟩⟩ <;>
        simp only [strptimeMdY, hps] at hst
      all_goals try exact Option.noConfusion hst
      split_ifs at hst with h1 h2
      obtain ⟨hsdecomp, hnm, hnd, hny⟩ := pySplit_eq_three hps
      refine ⟨ms, ds, ys, hsdecomp, ?_⟩
      simp only [monthTokOk, dayTokOk, yearTokOk, Bool.and_eq_true,
        decide_eq_true_eq, List.all_eq_true, Bool.not_eq_true',
        List.isEmpty_eq_false] at h1
      simp only [Bool.and_eq_true, decide_eq_true_eq] at h2
      obtain ⟨⟨⟨⟨⟨⟨hm1, hm2⟩, hm3⟩, hm4⟩, hm5⟩,
        ⟨⟨⟨⟨hd1, hd2⟩, hd3⟩, hd4⟩, _⟩⟩, hy1, hy2⟩ := h1
      exact ⟨hm1, hm2, hm3, hm4, hm5, hd1,
        hd2, hd3, hd4, hy1, hy2, h2.1, h2.2⟩

/-- C5 witness: the loose-format characterization applied to the
one-digit-month date `1/15/2019`. -/
theorem c5_amended_loose_format_witness :
    get_date "1/15/2019" = ⟨some "2019-01-15", "OK"⟩ := by
  have h := (c5_amended_loose_format "1/15/2019").1 ['1'] ['1', '5']
    ['2', '0', '1', '9'] rfl (by decide)
  exact h.trans (by decide)

/-- C1: after a mid-file utf-8 decode failure, the rows already inserted
into the shared database cursor are NOT discarded: the utf-16 retry
re-reads the file but keeps them, so a file whose utf-8 decoding yields a
valid row and then fails produces a report different from the report of
the same (fallback-decoded) content read cleanly from the start.  The
claim's "all partial progress is discarded" is violated by the code. -/
theorem c1_fallback_keeps_partial_rows :
    mainModel scCal fileBadUtf8 =
      some ([("2019-01-15", "USA", 1000, 255)], 1) ∧
    mainModel scCal fileCleanUtf8 = some ([], 1) ∧
    mainModel scCal fileBadUtf8 ≠ mainModel scCal fileCleanUtf8 := by
  refine ⟨by decide, by decide, by decide⟩

end ProcCsv
